import Mathlib

/-!
Verification of the reference-parsing and fetch-with-fallback core of
`github-actions-utils-cli` (Go). Strings are modelled as `List Char`
(Go strings are byte sequences; the separators `'@'` and `'/'` are single
ASCII bytes, so splitting by byte and splitting by character coincide on
well-formed UTF-8 input). Fallible functions return `Except`, with one
error constructor per `return nil, fmt.Errorf(...)` site in the source.
HTTP is modelled by an oracle `client : List Char → HTTPOutcome` mapping a
URL to the outcome of `http.Client.Get`.
-/

namespace GithubActionsUtils

/-- Whitespace as decided by Go's `unicode.IsSpace` (used by
`strings.TrimSpace`): the Latin-1 white space characters plus the
Unicode `White_Space` code points. -/
def goIsSpace (c : Char) : Bool :=
  c = ' ' || c = '\t' || c = '\n' || c = '\x0B' || c = '\x0C' || c = '\r' ||
  c = '\u0085' || c = '\u00A0' || c = '\u1680' ||
  ('\u2000' ≤ c && c ≤ '\u200A') ||
  c = '\u2028' || c = '\u2029' || c = '\u202F' || c = '\u205F' ||
  c = '\u3000'

/-- Go `strings.TrimSpace`: drop leading and trailing whitespace. -/
def trimSpace (s : List Char) : List Char :=
  ((s.dropWhile goIsSpace).reverse.dropWhile goIsSpace).reverse

/-- Go `strings.Split(s, sep)` for a single-character separator `sep`:
splits around every occurrence of `sep`; the separator itself is dropped.
`strings.Split("", sep) = [""]`, matching the `[[]]` base case. -/
def splitChar (sep : Char) : List Char → List (List Char)
  | [] => [[]]
  | c :: cs =>
    if c = sep then
      [] :: splitChar sep cs
    else
      match splitChar sep cs with
      | [] => [[c]]
      | p :: ps => (c :: p) :: ps

/-- `Ref` from `internal/github/ref.go`: a parsed GitHub reference. -/
structure Ref where
  owner : List Char
  repo : List Char
  version : List Char
  deriving Repr, DecidableEq

/-- One constructor per error-return site of `ParseRef`
(`internal/github/ref.go`), carrying the same diagnostic payload the Go
`fmt.Errorf` message interpolates. -/
inductive ParseErr where
  /-- "reference cannot be empty" -/
  | emptyRef : ParseErr
  /-- "invalid reference format: expected 'owner/repo@version' or
  'owner/repo', got ..." (more than one `@`). -/
  | invalidRefFormat : List Char → ParseErr
  /-- "invalid reference format: expected 'owner/repo@version', got ..."
  (no `@` while a version is required). -/
  | versionRequired : List Char → ParseErr
  /-- "invalid repository path: expected 'owner/repo', got ..." -/
  | invalidRepoPath : List Char → ParseErr
  /-- "owner, repo, and version must all be non-empty" -/
  | emptyFields : ParseErr
  deriving Repr, DecidableEq

/-- `ParseRef` from `internal/github/ref.go`: parses
"owner/repo@version". If `requireVersion` is true the `@version` part is
mandatory; otherwise a missing version falls back to `defaultVersion`. -/
def ParseRef (ref0 : List Char) (requireVersion : Bool)
    (defaultVersion : List Char) : Except ParseErr Ref :=
  let ref := trimSpace ref0
  if ref = [] then
    .error ParseErr.emptyRef
  else
    let headVer : Except ParseErr (List Char × List Char) :=
      if '@' ∈ ref then
        match splitChar '@' ref with
        | [repoPath, version] => .ok (repoPath, version)
        | _ => .error (ParseErr.invalidRefFormat ref)
      else if requireVersion then
        .error (ParseErr.versionRequired ref)
      else
        .ok (ref, defaultVersion)
    match headVer with
    | .error e => .error e
    | .ok (repoPath, version) =>
      match splitChar '/' repoPath with
      | [owner, repo] =>
        if owner = [] ∨ repo = [] ∨ version = [] then
          .error ParseErr.emptyFields
        else
          .ok { owner := owner, repo := repo, version := version }
      | _ => .error (ParseErr.invalidRepoPath repoPath)

/-- `ParseActionRef` from `internal/github/actions.go`: the version part
is required for actions. -/
def ParseActionRef (ref : List Char) : Except ParseErr Ref :=
  ParseRef ref true []

/-- `ParseRepoRef` from `internal/github/actions.go`: the version
defaults to "main" when absent. -/
def ParseRepoRef (ref : List Char) : Except ParseErr Ref :=
  ParseRef ref false "main".toList

/-- The repo-path part of a trimmed reference: the text before the first
`@`, or the whole string when there is no `@`. Used only to state the
segment-count property; `ParseRef` itself derives this via `splitChar`. -/
def repoPathPart (l : List Char) : List Char :=
  if '@' ∈ l then l.takeWhile (fun c => !(c == '@')) else l

/-- The result of `http.Client.Get` plus the subsequent body read: a
status code and the outcome of `io.ReadAll(resp.Body)` (which may fail).
Bytes of the body are modelled as characters; Go's `[]byte → string`
conversion is the identity on the underlying bytes. -/
structure HTTPResponse where
  statusCode : Nat
  body : Except (List Char) (List Char)
  deriving Repr

/-- Outcome of `http.Client.Get(url)`: a transport-level failure, or a
response. -/
inductive HTTPOutcome where
  | fail : List Char → HTTPOutcome
  | resp : HTTPResponse → HTTPOutcome
  deriving Repr

/-- The HTTP client, modelled as an oracle from a URL to the outcome of
a GET against it. -/
def HTTPClient : Type := List Char → HTTPOutcome

/-- The URL built by `FetchRawFile`
(`internal/github/ref.go`): `https://raw.githubusercontent.com/
{owner}/{repo}/{urlPath}/{filename}`. -/
def rawURL (owner repo urlPath filename : List Char) : List Char :=
  "https://raw.githubusercontent.com/".toList ++ owner ++ "/".toList ++
    repo ++ "/".toList ++ urlPath ++ "/".toList ++ filename

/-- One constructor per error-return site of `FetchRawFile`
(`internal/github/ref.go`). -/
inductive FetchErr where
  /-- "failed to fetch {filename}: {err}" (transport-level failure). -/
  | transport : (filename cause : List Char) → FetchErr
  /-- "{filename} not found at {url} (status: 404)". -/
  | notFound : (filename url : List Char) → FetchErr
  /-- "failed to fetch {filename} from {url} (status: {code})". -/
  | unexpectedStatus : (filename url : List Char) → (status : Nat) →
      FetchErr
  /-- "failed to read {filename} response: {err}". -/
  | readBody : (filename cause : List Char) → FetchErr
  deriving Repr, DecidableEq

/-- `FetchRawFile` from `internal/github/ref.go`: fetch one file from
the raw-content CDN, mapping transport errors, 404, other non-200
statuses, and body-read errors to their respective failures. -/
def FetchRawFile (client : HTTPClient) (owner repo urlPath filename :
    List Char) : Except FetchErr (List Char) :=
  let url := rawURL owner repo urlPath filename
  match client url with
  | .fail err => .error (FetchErr.transport filename err)
  | .resp resp =>
    if resp.statusCode ≠ 200 then
      if resp.statusCode = 404 then
        .error (FetchErr.notFound filename url)
      else
        .error (FetchErr.unexpectedStatus filename url resp.statusCode)
    else
      match resp.body with
      | .error err => .error (FetchErr.readBody filename err)
      | .ok data => .ok data

/-- The aggregate failure produced when every candidate filename failed:
"... not found for {owner}/{repo}@{version}: {lastErr}". The `Option`
is `none` exactly when the Go code reaches the final `return` with
`lastErr == nil` (possible only for an empty candidate list). -/
inductive AggErr where
  | allFailed : (owner repo version : List Char) →
      (last : Option FetchErr) → AggErr
  deriving Repr, DecidableEq

/-- The candidate loop shared by `FetchActionYAML` and `FetchReadme`
(`internal/github/actions.go`): try each filename in order, return the
first successful body, and otherwise report the value of `lastErr` after
the loop (`none` if no candidate was ever attempted). -/
def fetchFirst (client : HTTPClient) (owner repo urlPath : List Char)
    (lastErr : Option FetchErr) :
    List (List Char) → Except (Option FetchErr) (List Char)
  | [] => .error lastErr
  | filename :: rest =>
    match FetchRawFile client owner repo urlPath filename with
    | .ok data => .ok data
    | .error e => fetchFirst client owner repo urlPath (some e) rest

/-- The epilogue shared by `FetchActionYAML` and `FetchReadme`: wrap the
loop's outcome, attaching the owner/repo/version coordinates to the
aggregate failure. -/
def fetchWithFallback (client : HTTPClient)
    (owner repo version urlPath : List Char)
    (candidates : List (List Char)) : Except AggErr (List Char) :=
  match fetchFirst client owner repo urlPath none candidates with
  | .ok data => .ok data
  | .error lastErr => .error (AggErr.allFailed owner repo version lastErr)

/-- `FetchActionYAML` from `internal/github/actions.go`: try
`action.yml` then `action.yaml` under the tag path
`refs/tags/{version}`. -/
def FetchActionYAML (client : HTTPClient) (owner repo version :
    List Char) : Except AggErr (List Char) :=
  fetchWithFallback client owner repo version
    ("refs/tags/".toList ++ version)
    ["action.yml".toList, "action.yaml".toList]

/-- `FetchReadme` from `internal/github/actions.go`: try the five README
filename variants under the branch path `refs/heads/{version}`. The Go
function returns `string(data)`, which preserves the bytes, so the body
is returned unchanged. -/
def FetchReadme (client : HTTPClient) (owner repo version : List Char) :
    Except AggErr (List Char) :=
  fetchWithFallback client owner repo version
    ("refs/heads/".toList ++ version)
    ["README.md".toList, "readme.md".toList, "Readme.md".toList,
      "README".toList, "readme".toList]

end GithubActionsUtils

namespace GithubActionsUtils

example : ParseRef "actions/checkout@v5".toList false "main".toList =
    .ok ⟨"actions".toList, "checkout".toList, "v5".toList⟩ := rfl

example : ParseRef "  owner/repo@v2  ".toList false "main".toList =
    .ok ⟨"owner".toList, "repo".toList, "v2".toList⟩ := rfl

example : ParseRef "owner/repo".toList false "main".toList =
    .ok ⟨"owner".toList, "repo".toList, "main".toList⟩ := rfl

example : ParseRef "owner/repo".toList true [] =
    .error (ParseErr.versionRequired "owner/repo".toList) := rfl

example : ParseRef "owner/repo@v1@extra".toList false "main".toList =
    .error (ParseErr.invalidRefFormat "owner/repo@v1@extra".toList) := rfl

example : ParseRef "owner/group/repo@v1".toList false "main".toList =
    .error (ParseErr.invalidRepoPath "owner/group/repo".toList) := rfl

example : ParseRef "owner@v1".toList false "main".toList =
    .error (ParseErr.invalidRepoPath "owner".toList) := rfl

example : ParseRef "   \n\t  ".toList false "main".toList =
    .error ParseErr.emptyRef := rfl

end GithubActionsUtils

namespace GithubActionsUtils

theorem splitChar_ne_nil (sep : Char) (l : List Char) :
    splitChar sep l ≠ [] := by
  cases l with
  | nil => simp [splitChar]
  | cons c cs =>
    simp only [splitChar]
    split
    · simp
    · split <;> simp

theorem splitChar_of_not_mem {sep : Char} {l : List Char} (h : sep ∉ l) :
    splitChar sep l = [l] := by
  induction l with
  | nil => rfl
  | cons c cs ih =>
    simp only [List.mem_cons, not_or] at h
    have hc : ¬(c = sep) := fun hcs => h.1 hcs.symm
    simp only [splitChar, if_neg hc]
    rw [ih h.2]

theorem splitChar_append {sep : Char} {a : List Char} (b : List Char)
    (h : sep ∉ a) :
    splitChar sep (a ++ sep :: b) = a :: splitChar sep b := by
  induction a with
  | nil => simp [splitChar]
  | cons c cs ih =>
    simp only [List.mem_cons, not_or] at h
    have hc : ¬(c = sep) := fun hcs => h.1 hcs.symm
    simp only [List.cons_append, splitChar, if_neg hc, List.append_eq]
    rw [ih h.2]

theorem splitChar_length (sep : Char) (l : List Char) :
    (splitChar sep l).length = l.count sep + 1 := by
  induction l with
  | nil => rfl
  | cons c cs ih =>
    by_cases hc : c = sep
    · subst hc
      simp [splitChar, List.count_cons, ih]
    · rcases hs : splitChar sep cs with _ | ⟨p, ps⟩
      · exact absurd hs (splitChar_ne_nil sep cs)
      · rw [hs] at ih
        simp only [List.length_cons] at ih
        simp only [splitChar, if_neg hc, hs, List.length_cons,
          List.count_cons]
        simp only [beq_iff_eq, if_neg hc]
        omega

theorem splitChar_head (sep : Char) (l : List Char) :
    ∃ t, splitChar sep l = (l.takeWhile (fun c => !(c == sep))) :: t := by
  induction l with
  | nil => exact ⟨[], rfl⟩
  | cons c cs ih =>
    by_cases hc : c = sep
    · refine ⟨splitChar sep cs, ?_⟩
      simp [splitChar, hc, List.takeWhile_cons]
    · obtain ⟨t, ht⟩ := ih
      exact ⟨t, by simp [splitChar, hc, ht, List.takeWhile_cons]⟩

end GithubActionsUtils

namespace GithubActionsUtils

theorem trimSpace_of_all_space {s : List Char}
    (h : ∀ c ∈ s, goIsSpace c = true) : trimSpace s = [] := by
  unfold trimSpace
  have h1 : s.dropWhile goIsSpace = [] := by
    rw [List.dropWhile_eq_nil_iff]
    exact h
  simp [h1]

theorem count_dropWhile_of_neg {p : Char → Bool} {c : Char}
    (hc : p c = false) (l : List Char) :
    (l.dropWhile p).count c = l.count c := by
  conv_rhs => rw [← List.takeWhile_append_dropWhile (p := p) (l := l)]
  rw [List.count_append]
  have hz : (l.takeWhile p).count c = 0 := by
    rw [List.count_eq_zero]
    intro hm
    have := List.mem_takeWhile_imp hm
    rw [hc] at this
    exact Bool.false_ne_true this
  omega

theorem count_trimSpace {c : Char} (hc : goIsSpace c = false)
    (s : List Char) : (trimSpace s).count c = s.count c := by
  unfold trimSpace
  rw [List.count_reverse, count_dropWhile_of_neg hc, List.count_reverse,
    count_dropWhile_of_neg hc]

theorem parseRef_ok_of_shape {o r v s : List Char}
    (ho : o ≠ []) (hr : r ≠ []) (hv : v ≠ [])
    (hoa : '@' ∉ o) (hra : '@' ∉ r) (hva : '@' ∉ v)
    (hos : '/' ∉ o) (hrs : '/' ∉ r)
    (ht : trimSpace s = o ++ '/' :: r ++ '@' :: v)
    (requireVersion : Bool) (defaultVersion : List Char) :
    ParseRef s requireVersion defaultVersion =
      .ok ⟨o, r, v⟩ := by
  have hassoc : o ++ '/' :: r ++ '@' :: v = (o ++ '/' :: r) ++ '@' :: v := by
    simp [List.append_assoc]
  have hnp : '@' ∉ o ++ '/' :: r := by
    simp only [List.mem_append, List.mem_cons, not_or]
    exact ⟨hoa, by decide, hra⟩
  have hne : ¬(o ++ '/' :: r ++ '@' :: v = []) := by
    simp [List.append_eq_nil, ho]
  have hmem : '@' ∈ o ++ '/' :: r ++ '@' :: v := by
    simp
  simp only [ParseRef, ht, if_neg hne, if_pos hmem]
  rw [hassoc, splitChar_append _ hnp, splitChar_of_not_mem hva]
  simp [splitChar_append _ hos, splitChar_of_not_mem hrs, ho, hr, hv]

end GithubActionsUtils

namespace GithubActionsUtils

theorem parseRef_default_of_shape {o r s : List Char}
    (ho : o ≠ []) (hr : r ≠ [])
    (hoa : '@' ∉ o) (hra : '@' ∉ r)
    (hos : '/' ∉ o) (hrs : '/' ∉ r)
    (ht : trimSpace s = o ++ '/' :: r)
    {dv : List Char} (hdv : dv ≠ []) :
    ParseRef s false dv = .ok ⟨o, r, dv⟩ := by
  have hne : ¬(o ++ '/' :: r = []) := by
    simp [List.append_eq_nil, ho]
  have hnmem : '@' ∉ o ++ '/' :: r := by
    simp only [List.mem_append, List.mem_cons, not_or]
    exact ⟨hoa, by decide, hra⟩
  simp only [ParseRef, ht, if_neg hne, if_neg hnmem]
  simp [splitChar_append _ hos, splitChar_of_not_mem hrs, ho, hr, hdv]

theorem parseRef_fields_ne_of_ok {s : List Char} {rv : Bool}
    {dv : List Char} {ref : Ref}
    (h : ParseRef s rv dv = .ok ref) :
    ref.owner ≠ [] ∧ ref.repo ≠ [] ∧ ref.version ≠ [] := by
  simp only [ParseRef] at h
  repeat' split at h
  all_goals first
    | (simp at h
       done)
    | (rename_i hguard
       simp only [Except.ok.injEq] at h
       subst h
       push_neg at hguard
       exact ⟨hguard.1, hguard.2.1, hguard.2.2⟩)

theorem parseRef_blank {s : List Char}
    (h : ∀ c ∈ s, goIsSpace c = true) (rv : Bool) (dv : List Char) :
    ParseRef s rv dv = .error ParseErr.emptyRef := by
  simp [ParseRef, trimSpace_of_all_space h]

theorem parseRef_multi_at {s : List Char} (h : 2 ≤ s.count '@')
    (rv : Bool) (dv : List Char) :
    ParseRef s rv dv =
      .error (ParseErr.invalidRefFormat (trimSpace s)) := by
  have hq : goIsSpace '@' = false := by decide
  have hcount : (trimSpace s).count '@' = s.count '@' :=
    count_trimSpace hq s
  have hmem : '@' ∈ trimSpace s := by
    rw [← List.count_pos_iff]
    omega
  have hne : ¬(trimSpace s = []) := by
    intro h0
    rw [h0] at hmem
    simp at hmem
  have hlen : (splitChar '@' (trimSpace s)).length ≠ 2 := by
    rw [splitChar_length]
    omega
  simp only [ParseRef, if_neg hne, if_pos hmem]
  rcases hsp : splitChar '@' (trimSpace s) with _ | ⟨a, t⟩
  · exact absurd hsp (splitChar_ne_nil _ _)
  rcases t with _ | ⟨b, t2⟩
  · simp [hsp]
  rcases t2 with _ | ⟨c, t3⟩
  · rw [hsp] at hlen
    simp at hlen
  · simp [hsp]

theorem parseRef_no_at_required {s : List Char} (h : s.count '@' = 0)
    (dv : List Char) :
    ∃ e, ParseRef s true dv = .error e := by
  by_cases hne : trimSpace s = []
  · exact ⟨ParseErr.emptyRef, by simp [ParseRef, hne]⟩
  · have hnmem : '@' ∉ trimSpace s := by
      have hc := count_trimSpace (by decide : goIsSpace '@' = false) s
      intro hm
      have := List.count_pos_iff.mpr hm
      omega
    exact ⟨ParseErr.versionRequired (trimSpace s),
      by simp [ParseRef, if_neg hne, if_neg hnmem]⟩

theorem parseRef_bad_segments {s : List Char}
    (h : (splitChar '/' (repoPathPart (trimSpace s))).length ≠ 2)
    (rv : Bool) (dv : List Char) :
    ∃ e, ParseRef s rv dv = .error e := by
  by_cases hne : trimSpace s = []
  · exact ⟨ParseErr.emptyRef, by simp [ParseRef, hne]⟩
  by_cases hmem : '@' ∈ trimSpace s
  · rcases hsp : splitChar '@' (trimSpace s) with _ | ⟨a, t⟩
    · exact absurd hsp (splitChar_ne_nil _ _)
    rcases t with _ | ⟨b, t2⟩
    · exact ⟨ParseErr.invalidRefFormat (trimSpace s),
        by simp [ParseRef, if_neg hne, if_pos hmem, hsp]⟩
    rcases t2 with _ | ⟨c, t3⟩
    · obtain ⟨tt, htt⟩ := splitChar_head '@' (trimSpace s)
      rw [hsp] at htt
      injection htt with ha _
      have hrp : repoPathPart (trimSpace s) = a := by
        rw [repoPathPart, if_pos hmem, ← ha]
      rw [hrp] at h
      rcases hs2 : splitChar '/' a with _ | ⟨x, u⟩
      · exact absurd hs2 (splitChar_ne_nil _ _)
      rcases u with _ | ⟨y, u2⟩
      · exact ⟨ParseErr.invalidRepoPath a,
          by simp [ParseRef, if_neg hne, if_pos hmem, hsp, hs2]⟩
      rcases u2 with _ | ⟨z, u3⟩
      · rw [hs2] at h
        simp at h
      · exact ⟨ParseErr.invalidRepoPath a,
          by simp [ParseRef, if_neg hne, if_pos hmem, hsp, hs2]⟩
    · exact ⟨ParseErr.invalidRefFormat (trimSpace s),
        by simp [ParseRef, if_neg hne, if_pos hmem, hsp]⟩
  · have hrp : repoPathPart (trimSpace s) = trimSpace s := by
      rw [repoPathPart, if_neg hmem]
    rw [hrp] at h
    cases rv with
    | true =>
      exact ⟨ParseErr.versionRequired (trimSpace s),
        by simp [ParseRef, if_neg hne, if_neg hmem]⟩
    | false =>
      rcases hs2 : splitChar '/' (trimSpace s) with _ | ⟨x, u⟩
      · exact absurd hs2 (splitChar_ne_nil _ _)
      rcases u with _ | ⟨y, u2⟩
      · exact ⟨ParseErr.invalidRepoPath (trimSpace s),
          by simp [ParseRef, if_neg hne, if_neg hmem, hs2]⟩
      rcases u2 with _ | ⟨z, u3⟩
      · rw [hs2] at h
        simp at h
      · exact ⟨ParseErr.invalidRepoPath (trimSpace s),
          by simp [ParseRef, if_neg hne, if_neg hmem, hs2]⟩

end GithubActionsUtils

namespace GithubActionsUtils

/-- C1: every input whose trimmed form is `owner/repo@version` — with
exactly one `@`, exactly one `/` before the `@`, and non-empty owner,
repo, and version — parses successfully in both modes, yielding exactly
those three segments. -/
theorem C1_wellformed_parses (o r v s : List Char)
    (ho : o ≠ []) (hr : r ≠ []) (hv : v ≠ [])
    (hoa : '@' ∉ o) (hra : '@' ∉ r) (hva : '@' ∉ v)
    (hos : '/' ∉ o) (hrs : '/' ∉ r)
    (ht : trimSpace s = o ++ '/' :: r ++ '@' :: v)
    (requireVersion : Bool) (defaultVersion : List Char) :
    ParseRef s requireVersion defaultVersion = .ok ⟨o, r, v⟩ :=
  parseRef_ok_of_shape ho hr hv hoa hra hva hos hrs ht _ _

theorem C1_wellformed_parses_witness :
    ParseRef "  owner/repo@main  ".toList true [] =
      .ok ⟨"owner".toList, "repo".toList, "main".toList⟩ ∧
    ParseRef "  owner/repo@main  ".toList false "x".toList =
      .ok ⟨"owner".toList, "repo".toList, "main".toList⟩ :=
  ⟨C1_wellformed_parses "owner".toList "repo".toList "main".toList
      "  owner/repo@main  ".toList (by decide) (by decide) (by decide)
      (by decide) (by decide) (by decide) (by decide) (by decide) rfl
      true [],
    C1_wellformed_parses "owner".toList "repo".toList "main".toList
      "  owner/repo@main  ".toList (by decide) (by decide) (by decide)
      (by decide) (by decide) (by decide) (by decide) (by decide) rfl
      false "x".toList⟩

/-- C3: a successfully parsed `Ref` always has non-empty owner, repo,
and version; and an empty or whitespace-only input fails in every
mode. -/
theorem C3_ok_fields_nonempty :
    (∀ (s : List Char) (rv : Bool) (dv : List Char) (ref : Ref),
      ParseRef s rv dv = .ok ref →
      ref.owner ≠ [] ∧ ref.repo ≠ [] ∧ ref.version ≠ []) ∧
    (∀ s : List Char, (∀ c ∈ s, goIsSpace c = true) →
      ∀ (rv : Bool) (dv : List Char),
        ParseRef s rv dv = .error ParseErr.emptyRef) :=
  ⟨fun _ _ _ _ h => parseRef_fields_ne_of_ok h,
    fun _ h _ _ => parseRef_blank h _ _⟩

theorem C3_ok_fields_nonempty_witness :
    ("owner".toList ≠ ([] : List Char) ∧
      "repo".toList ≠ ([] : List Char) ∧
      "v1".toList ≠ ([] : List Char)) ∧
    ParseRef "   ".toList false "main".toList =
      .error ParseErr.emptyRef ∧
    ParseRef [] true [] = .error ParseErr.emptyRef :=
  ⟨C3_ok_fields_nonempty.1 "owner/repo@v1".toList true []
      ⟨"owner".toList, "repo".toList, "v1".toList⟩ rfl,
    C3_ok_fields_nonempty.2 "   ".toList (by decide) false "main".toList,
    C3_ok_fields_nonempty.2 [] (by decide) true []⟩

/-- C5: an input containing two or more `@` fails in both modes, and an
input containing no `@` fails when a version is required. -/
theorem C5_at_sign_count :
    (∀ s : List Char, 2 ≤ s.count '@' →
      ∀ (rv : Bool) (dv : List Char),
        ParseRef s rv dv =
          .error (ParseErr.invalidRefFormat (trimSpace s))) ∧
    (∀ s : List Char, s.count '@' = 0 → ∀ dv : List Char,
      ∃ e, ParseRef s true dv = .error e) :=
  ⟨fun _ h _ _ => parseRef_multi_at h _ _,
    fun _ h _ => parseRef_no_at_required h _⟩

theorem C5_at_sign_count_witness :
    ParseRef "owner/repo@v1@extra".toList false "main".toList =
      .error (ParseErr.invalidRefFormat
        (trimSpace "owner/repo@v1@extra".toList)) ∧
    (∃ e, ParseRef "owner/repo".toList true "main".toList = .error e) :=
  ⟨C5_at_sign_count.1 "owner/repo@v1@extra".toList (by decide) false
      "main".toList,
    C5_at_sign_count.2 "owner/repo".toList (by decide) "main".toList⟩

/-- C6: whenever the repo-path part of the trimmed input (the text
before the `@`, or the whole trimmed input when there is no `@`) does
not split on `/` into exactly two segments, parsing fails, in both
modes. -/
theorem C6_segment_count (s : List Char)
    (h : (splitChar '/' (repoPathPart (trimSpace s))).length ≠ 2)
    (rv : Bool) (dv : List Char) :
    ∃ e, ParseRef s rv dv = .error e :=
  parseRef_bad_segments h rv dv

theorem C6_segment_count_witness :
    (∃ e, ParseRef "owner/group/repo@v1".toList true [] = .error e) ∧
    (∃ e, ParseRef "owner/group/repo@v1".toList false "main".toList =
      .error e) ∧
    (∃ e, ParseRef "owner".toList false "main".toList = .error e) :=
  ⟨C6_segment_count "owner/group/repo@v1".toList (by decide) true [],
    C6_segment_count "owner/group/repo@v1".toList (by decide) false
      "main".toList,
    C6_segment_count "owner".toList (by decide) false "main".toList⟩

/-- C7: a trimmed `owner/repo` input with no `@` and non-empty segments
parses in version-optional mode with any non-empty default version, the
version field being exactly that default; the repository-reference
entry point instantiates this with default "main". -/
theorem C7_default_version (o r s dv : List Char)
    (ho : o ≠ []) (hr : r ≠ [])
    (hoa : '@' ∉ o) (hra : '@' ∉ r)
    (hos : '/' ∉ o) (hrs : '/' ∉ r)
    (hdv : dv ≠ [])
    (ht : trimSpace s = o ++ '/' :: r) :
    ParseRef s false dv = .ok ⟨o, r, dv⟩ ∧
    ParseRepoRef s = .ok ⟨o, r, "main".toList⟩ :=
  ⟨parseRef_default_of_shape ho hr hoa hra hos hrs ht hdv,
    parseRef_default_of_shape ho hr hoa hra hos hrs ht (by decide)⟩

theorem C7_default_version_witness :
    ParseRef "owner/repo".toList false "main".toList =
      .ok ⟨"owner".toList, "repo".toList, "main".toList⟩ ∧
    ParseRepoRef "owner/repo".toList =
      .ok ⟨"owner".toList, "repo".toList, "main".toList⟩ :=
  C7_default_version "owner".toList "repo".toList "owner/repo".toList
    "main".toList (by decide) (by decide) (by decide) (by decide)
    (by decide) (by decide) (by decide) rfl

/-- C9: the slash-count restriction applies only to the text before the
`@`: an input with exactly one `@` whose version part contains slashes
still parses in both modes, the version taken verbatim. -/
theorem C9_slash_in_version (o r v s : List Char)
    (ho : o ≠ []) (hr : r ≠ [])
    (hoa : '@' ∉ o) (hra : '@' ∉ r) (hva : '@' ∉ v)
    (hos : '/' ∉ o) (hrs : '/' ∉ r)
    (hslash : '/' ∈ v)
    (ht : trimSpace s = o ++ '/' :: r ++ '@' :: v)
    (requireVersion : Bool) (defaultVersion : List Char) :
    ParseRef s requireVersion defaultVersion = .ok ⟨o, r, v⟩ :=
  parseRef_ok_of_shape ho hr (List.ne_nil_of_mem hslash) hoa hra hva
    hos hrs ht _ _

theorem C9_slash_in_version_witness :
    ParseRef "owner/repo@feature/branch".toList true [] =
      .ok ⟨"owner".toList, "repo".toList, "feature/branch".toList⟩ ∧
    ParseRef "owner/repo@feature/branch".toList false "main".toList =
      .ok ⟨"owner".toList, "repo".toList, "feature/branch".toList⟩ :=
  ⟨C9_slash_in_version "owner".toList "repo".toList
      "feature/branch".toList "owner/repo@feature/branch".toList
      (by decide) (by decide) (by decide) (by decide) (by decide)
      (by decide) (by decide) (by decide) rfl true [],
    C9_slash_in_version "owner".toList "repo".toList
      "feature/branch".toList "owner/repo@feature/branch".toList
      (by decide) (by decide) (by decide) (by decide) (by decide)
      (by decide) (by decide) (by decide) rfl false "main".toList⟩

/-- C10: only surrounding whitespace is stripped; segments are returned
verbatim, interior whitespace included, so "owner/my repo@v 1" parses
with the whitespace intact in every mode. -/
theorem C10_interior_whitespace :
    (∀ o r v s : List Char, o ≠ [] → r ≠ [] → v ≠ [] →
      '@' ∉ o → '@' ∉ r → '@' ∉ v → '/' ∉ o → '/' ∉ r →
      trimSpace s = o ++ '/' :: r ++ '@' :: v →
      ∀ (rv : Bool) (dv : List Char),
        ParseRef s rv dv = .ok ⟨o, r, v⟩) ∧
    ParseRef "owner/my repo@v 1".toList true [] =
      .ok ⟨"owner".toList, "my repo".toList, "v 1".toList⟩ ∧
    ParseRef "owner/my repo@v 1".toList false "main".toList =
      .ok ⟨"owner".toList, "my repo".toList, "v 1".toList⟩ :=
  ⟨fun _ _ _ _ ho hr hv hoa hra hva hos hrs ht _ _ =>
      parseRef_ok_of_shape ho hr hv hoa hra hva hos hrs ht _ _,
    rfl, rfl⟩

theorem C10_interior_whitespace_witness :
    ParseRef " owner/my repo@v 1 ".toList true [] =
      .ok ⟨"owner".toList, "my repo".toList, "v 1".toList⟩ :=
  C10_interior_whitespace.1 "owner".toList "my repo".toList
    "v 1".toList " owner/my repo@v 1 ".toList (by decide) (by decide)
    (by decide) (by decide) (by decide) (by decide) (by decide)
    (by decide) rfl true []

end GithubActionsUtils

namespace GithubActionsUtils

theorem fetchFirst_first_ok {client : HTTPClient}
    {owner repo urlPath : List Char} {f data : List Char}
    {pre post : List (List Char)}
    (hpre : ∀ g ∈ pre,
      ∃ e, FetchRawFile client owner repo urlPath g = .error e)
    (hf : FetchRawFile client owner repo urlPath f = .ok data)
    (le0 : Option FetchErr) :
    fetchFirst client owner repo urlPath le0 (pre ++ f :: post) =
      .ok data := by
  induction pre generalizing le0 with
  | nil => simp [fetchFirst, hf]
  | cons g gs ih =>
    obtain ⟨e, he⟩ := hpre g (List.mem_cons_self g gs)
    simp only [List.cons_append, fetchFirst, he]
    exact ih (fun x hx => hpre x (List.mem_cons_of_mem _ hx)) (some e)

theorem fetchFirst_all_fail {client : HTTPClient}
    {owner repo urlPath : List Char} :
    ∀ (candidates : List (List Char)) (le0 : Option FetchErr),
      candidates ≠ [] →
      (∀ g ∈ candidates,
        ∃ e, FetchRawFile client owner repo urlPath g = .error e) →
      ∃ lastf elast, candidates.getLast? = some lastf ∧
        FetchRawFile client owner repo urlPath lastf = .error elast ∧
        fetchFirst client owner repo urlPath le0 candidates =
          .error (some elast)
  | [], _, hne, _ => absurd rfl hne
  | [g], le0, _, hfail => by
    obtain ⟨e, he⟩ := hfail g (by simp)
    exact ⟨g, e, rfl, he, by simp [fetchFirst, he]⟩
  | g :: g2 :: gs, le0, _, hfail => by
    obtain ⟨e, he⟩ := hfail g (List.mem_cons_self g _)
    obtain ⟨lastf, elast, h0, h1, h2⟩ :=
      fetchFirst_all_fail (g2 :: gs) (some e) (by simp)
        (fun x hx => hfail x (List.mem_cons_of_mem _ hx))
    refine ⟨lastf, elast, by simpa using h0, h1, ?_⟩
    simp only [fetchFirst, he]
    exact h2

/-- C2: the fallback fetch tries candidates in the caller-supplied
order, returning the body of the first candidate whose single-file
fetch succeeds; when all candidates fail, it returns the aggregate
failure carrying the owner/repo/version coordinates and wrapping the
failure of the last candidate attempted. -/
theorem C2_fallback_order :
    (∀ (client : HTTPClient) (owner repo version urlPath : List Char)
      (pre : List (List Char)) (f : List Char)
      (post : List (List Char)) (data : List Char),
      (∀ g ∈ pre,
        ∃ e, FetchRawFile client owner repo urlPath g = .error e) →
      FetchRawFile client owner repo urlPath f = .ok data →
      fetchWithFallback client owner repo version urlPath
        (pre ++ f :: post) = .ok data) ∧
    (∀ (client : HTTPClient) (owner repo version urlPath : List Char)
      (candidates : List (List Char)), candidates ≠ [] →
      (∀ g ∈ candidates,
        ∃ e, FetchRawFile client owner repo urlPath g = .error e) →
      ∃ lastf elast, candidates.getLast? = some lastf ∧
        FetchRawFile client owner repo urlPath lastf = .error elast ∧
        fetchWithFallback client owner repo version urlPath candidates =
          .error (AggErr.allFailed owner repo version (some elast))) := by
  constructor
  · intro client owner repo version urlPath pre f post data hpre hf
    simp [fetchWithFallback, fetchFirst_first_ok hpre hf none]
  · intro client owner repo version urlPath candidates hne hfail
    obtain ⟨lastf, elast, h0, h1, h2⟩ :=
      fetchFirst_all_fail candidates none hne hfail
    exact ⟨lastf, elast, h0, h1, by simp [fetchWithFallback, h2]⟩

end GithubActionsUtils

namespace GithubActionsUtils

theorem C2_fallback_order_witness :
    fetchWithFallback
      (fun url =>
        if url = rawURL "o".toList "r".toList "p".toList "B".toList
        then HTTPOutcome.resp ⟨200, Except.ok "data".toList⟩
        else HTTPOutcome.resp ⟨404, Except.ok []⟩)
      "o".toList "r".toList "v".toList "p".toList
      ["A".toList, "B".toList, "C".toList] = .ok "data".toList ∧
    (∃ lastf elast,
      (["A".toList, "B".toList] : List (List Char)).getLast? =
        some lastf ∧
      FetchRawFile (fun _ => HTTPOutcome.resp ⟨404, Except.ok []⟩)
        "o".toList "r".toList "p".toList lastf = .error elast ∧
      fetchWithFallback (fun _ => HTTPOutcome.resp ⟨404, Except.ok []⟩)
        "o".toList "r".toList "v".toList "p".toList
        ["A".toList, "B".toList] =
        .error (AggErr.allFailed "o".toList "r".toList "v".toList
          (some elast))) := by
  constructor
  · exact C2_fallback_order.1 _ "o".toList "r".toList "v".toList
      "p".toList ["A".toList] "B".toList ["C".toList] "data".toList
      (by
        intro g hg
        simp only [List.mem_singleton] at hg
        subst hg
        exact ⟨_, rfl⟩)
      rfl
  · exact C2_fallback_order.2 _ "o".toList "r".toList "v".toList
      "p".toList ["A".toList, "B".toList] (by decide)
      (fun g _ => ⟨_, rfl⟩)

/-- C4: the single-file fetch hits exactly the raw-content URL built
from its four coordinates; a transport failure is wrapped as a
transport error, a 404 becomes a not-found error carrying the filename
and URL, any other non-200 status becomes an unexpected-status error
carrying the status and URL, and a 200 whose body reads successfully
yields the full body. -/
theorem C4_fetch_raw_file (client : HTTPClient)
    (owner repo urlPath filename : List Char) :
    (∀ err, client (rawURL owner repo urlPath filename) =
        HTTPOutcome.fail err →
      FetchRawFile client owner repo urlPath filename =
        .error (FetchErr.transport filename err)) ∧
    (∀ resp, client (rawURL owner repo urlPath filename) =
        HTTPOutcome.resp resp →
      (resp.statusCode = 404 →
        FetchRawFile client owner repo urlPath filename =
          .error (FetchErr.notFound filename
            (rawURL owner repo urlPath filename))) ∧
      (resp.statusCode ≠ 200 → resp.statusCode ≠ 404 →
        FetchRawFile client owner repo urlPath filename =
          .error (FetchErr.unexpectedStatus filename
            (rawURL owner repo urlPath filename) resp.statusCode)) ∧
      (∀ data, resp.statusCode = 200 → resp.body = .ok data →
        FetchRawFile client owner repo urlPath filename =
          .ok data)) := by
  constructor
  · intro err h
    simp [FetchRawFile, h]
  · intro resp h
    refine ⟨?_, ?_, ?_⟩
    · intro h404
      simp [FetchRawFile, h, h404]
    · intro h200 h404
      simp [FetchRawFile, h, h200, h404]
    · intro data h200 hbody
      simp [FetchRawFile, h, h200, hbody]

theorem C4_fetch_raw_file_witness :
    FetchRawFile (fun _ => HTTPOutcome.fail "dns".toList) "o".toList
      "r".toList "p".toList "f".toList =
      .error (FetchErr.transport "f".toList "dns".toList) ∧
    FetchRawFile (fun _ => HTTPOutcome.resp ⟨404, Except.ok []⟩)
      "o".toList "r".toList "p".toList "f".toList =
      .error (FetchErr.notFound "f".toList
        (rawURL "o".toList "r".toList "p".toList "f".toList)) ∧
    FetchRawFile (fun _ => HTTPOutcome.resp ⟨500, Except.ok []⟩)
      "o".toList "r".toList "p".toList "f".toList =
      .error (FetchErr.unexpectedStatus "f".toList
        (rawURL "o".toList "r".toList "p".toList "f".toList) 500) ∧
    FetchRawFile (fun _ => HTTPOutcome.resp ⟨200, Except.ok "y".toList⟩)
      "o".toList "r".toList "p".toList "f".toList =
      .ok "y".toList := by
  refine ⟨?_, ?_, ?_, ?_⟩
  · exact (C4_fetch_raw_file (fun _ => HTTPOutcome.fail "dns".toList)
      "o".toList "r".toList "p".toList "f".toList).1 "dns".toList rfl
  · exact ((C4_fetch_raw_file
      (fun _ => HTTPOutcome.resp ⟨404, Except.ok []⟩)
      "o".toList "r".toList "p".toList "f".toList).2
      ⟨404, Except.ok []⟩ rfl).1 rfl
  · exact ((C4_fetch_raw_file
      (fun _ => HTTPOutcome.resp ⟨500, Except.ok []⟩)
      "o".toList "r".toList "p".toList "f".toList).2
      ⟨500, Except.ok []⟩ rfl).2.1 (by decide) (by decide)
  · exact ((C4_fetch_raw_file
      (fun _ => HTTPOutcome.resp ⟨200, Except.ok "y".toList⟩)
      "o".toList "r".toList "p".toList "f".toList).2
      ⟨200, Except.ok "y".toList⟩ rfl).2.2 "y".toList rfl rfl

end GithubActionsUtils

namespace GithubActionsUtils

/-- C8: descriptor retrieval tries exactly `action.yml` then
`action.yaml` under the tag-style prefix `refs/tags/{version}`, and
documentation retrieval tries exactly the five README variants in order
under the branch-style prefix `refs/heads/{version}`, returning the
first successful body (the documentation body unchanged, since Go's
byte-to-string conversion preserves it) and otherwise wrapping the last
candidate's failure. -/
theorem C8_candidates_and_prefixes (client : HTTPClient)
    (owner repo version : List Char) :
    (FetchActionYAML client owner repo version =
      match FetchRawFile client owner repo
          ("refs/tags/".toList ++ version) "action.yml".toList with
      | .ok d => .ok d
      | .error _ =>
        match FetchRawFile client owner repo
            ("refs/tags/".toList ++ version) "action.yaml".toList with
        | .ok d => .ok d
        | .error e2 =>
          .error (AggErr.allFailed owner repo version (some e2))) ∧
    (FetchReadme client owner repo version =
      match FetchRawFile client owner repo
          ("refs/heads/".toList ++ version) "README.md".toList with
      | .ok d => .ok d
      | .error _ =>
        match FetchRawFile client owner repo
            ("refs/heads/".toList ++ version) "readme.md".toList with
        | .ok d => .ok d
        | .error _ =>
          match FetchRawFile client owner repo
              ("refs/heads/".toList ++ version) "Readme.md".toList with
          | .ok d => .ok d
          | .error _ =>
            match FetchRawFile client owner repo
                ("refs/heads/".toList ++ version) "README".toList with
            | .ok d => .ok d
            | .error _ =>
              match FetchRawFile client owner repo
                  ("refs/heads/".toList ++ version) "readme".toList with
              | .ok d => .ok d
              | .error e5 =>
                .error (AggErr.allFailed owner repo version
                  (some e5))) := by
  constructor
  · rcases h1 : FetchRawFile client owner repo
        ("refs/tags/".toList ++ version) "action.yml".toList with
        e1 | d1
    · rcases h2 : FetchRawFile client owner repo
          ("refs/tags/".toList ++ version) "action.yaml".toList with
          e2 | d2
      · simp only [FetchActionYAML, fetchWithFallback, fetchFirst, h1, h2]
      · simp only [FetchActionYAML, fetchWithFallback, fetchFirst, h1, h2]
    · simp only [FetchActionYAML, fetchWithFallback, fetchFirst, h1]
  · rcases h1 : FetchRawFile client owner repo
        ("refs/heads/".toList ++ version) "README.md".toList with
        e1 | d1
    · rcases h2 : FetchRawFile client owner repo
          ("refs/heads/".toList ++ version) "readme.md".toList with
          e2 | d2
      · rcases h3 : FetchRawFile client owner repo
            ("refs/heads/".toList ++ version) "Readme.md".toList with
            e3 | d3
        · rcases h4 : FetchRawFile client owner repo
              ("refs/heads/".toList ++ version) "README".toList with
              e4 | d4
          · rcases h5 : FetchRawFile client owner repo
                ("refs/heads/".toList ++ version) "readme".toList with
                e5 | d5
            · simp only [FetchReadme, fetchWithFallback, fetchFirst,
                h1, h2, h3, h4, h5]
            · simp only [FetchReadme, fetchWithFallback, fetchFirst,
                h1, h2, h3, h4, h5]
          · simp only [FetchReadme, fetchWithFallback, fetchFirst,
              h1, h2, h3, h4]
        · simp only [FetchReadme, fetchWithFallback, fetchFirst, h1, h2, h3]
      · simp only [FetchReadme, fetchWithFallback, fetchFirst, h1, h2]
    · simp only [FetchReadme, fetchWithFallback, fetchFirst, h1]

end GithubActionsUtils
